import Mathlib

set_option maxHeartbeats 1600000

/-! Shallow embedding of the VLM comparison dashboard's reconciliation core
    (dashboard.py): normalizers, fuzzy matchers, the candidate lookup, the
    accuracy calculation, candidate deduplication, load orchestration and
    the corpus aggregator, together with theorems settling the
    specification's claims about them. -/

/-- Text is modelled as a list of characters (a Python str). -/
abbrev Str := List Char

/-- Coerce a Lean string literal into the character-list model. -/
def chars (s : String) : Str := s.data

/-- Python str.strip: drop leading and trailing whitespace. -/
def pyStrip (s : Str) : Str :=
  ((s.dropWhile Char.isWhitespace).reverse.dropWhile Char.isWhitespace).reverse

/-- Python str.lower restricted to ASCII letters, as Char.toLower does. -/
def pyLower (s : Str) : Str := s.map Char.toLower

/-- Delete the separator characters removed by the source's normalizers. -/
def removeSeps (s : Str) : Str := s.filter (fun c => ¬ (c = '-' ∨ c = ' ' ∨ c = '_'))

/-- Embedding of normalize_text, normalize_word, normalize_for_compare and
    normalize_for_dedup from dashboard.py, which all perform the same
    transformation: strip, lowercase, delete hyphen, space, underscore. -/
def normalize_text (s : Str) : Str := removeSeps (pyLower (pyStrip s))

/-- The strip-then-lowercase applied at every cell access in the source. -/
def normCell (s : Str) : Str := pyLower (pyStrip s)

/-- Python str.split(sep) for a one-character separator: keeps empty pieces. -/
def splitOnChar (sep : Char) : Str → List Str
  | [] => [[]]
  | c :: cs =>
    match splitOnChar sep cs with
    | [] => [[]]
    | g :: gs => if c = sep then [] :: g :: gs else (c :: g) :: gs

/-- Helper for whitespace splitting, accumulating the current word reversed. -/
def splitWsAux (acc : Str) : Str → List Str
  | [] => if acc = [] then [] else [acc.reverse]
  | c :: cs =>
    if c.isWhitespace then
      if acc = [] then splitWsAux [] cs else acc.reverse :: splitWsAux [] cs
    else splitWsAux (c :: acc) cs

/-- Python str.split() with no argument: split on whitespace runs, no empties. -/
def splitWs (s : Str) : List Str := splitWsAux [] s

/-- Python str.rstrip("s"): drop every trailing letter s. -/
def rstripS (s : Str) : Str := (s.reverse.dropWhile (fun c => c = 's')).reverse

/-- Token set collected by word_level_match in dashboard.py: the value is
    split on commas, each phrase stripped and lowercased; every whitespace
    word of a phrase is normalized, and the whole normalized phrase itself
    is also inserted.  No singularization happens here. -/
def valueTokens (v : Str) : List Str :=
  ((splitOnChar ',' v).map (fun p => pyLower (pyStrip p))).foldl
    (fun acc p =>
      acc ++ ((splitWs p).map normalize_text).filter (fun t => t ≠ [])
          ++ (if normalize_text p ≠ [] then [normalize_text p] else [])) []

/-- Embedding of word_level_match from dashboard.py: empty inputs never
    match; otherwise the two token sets must intersect. -/
def word_level_match (v1 v2 : Str) : Bool :=
  if v1 = [] ∨ v2 = [] then false
  else decide (∃ t ∈ valueTokens v1, t ∈ valueTokens v2)

/-- Token set collected by fuzzy_match_subcat in dashboard.py: per comma
    phrase, every whitespace word is normalized and has trailing letters s
    stripped; unlike word_level_match no whole-phrase token is added. -/
def subcatTokens (s : Str) : List Str :=
  ((splitOnChar ',' s).map (fun v => pyLower (pyStrip v))).foldl
    (fun acc v =>
      acc ++ ((splitWs v).map (fun w => rstripS (normalize_text w))).filter (fun t => t ≠ [])) []

/-- Embedding of fuzzy_match_subcat from dashboard.py: singularized
    word-level overlap of the two subcategory labels. -/
def fuzzy_match_subcat (s1 s2 : Str) : Bool :=
  if s1 = [] ∨ s2 = [] then false
  else decide (∃ t ∈ subcatTokens s1, t ∈ subcatTokens s2)

/-- One annotated attribute row; cat and subcat are the hidden match-key
    fields the Reconciler reads (the source's cat-for-match columns). -/
structure Row where
  cat : Str
  subcat : Str
  key : Str
  val : Str
deriving DecidableEq

/-- Lookup keys of the candidate and ground-truth dictionaries: Python uses
    one dict whose keys are either 3-tuples or 2-tuples. -/
inductive LKey where
  | triple (cat subcat key : Str)
  | pair (cat key : Str)
deriving DecidableEq

/-- Insertion-ordered association list with Python-dict update semantics:
    overwriting a key keeps its original position. -/
abbrev LookupMap := List (LKey × Str)

/-- Dictionary read: first binding with the key. -/
def dictGet : LookupMap → LKey → Option Str
  | [], _ => none
  | p :: ps, k => if p.1 = k then some p.2 else dictGet ps k

/-- Dictionary write: replace in place when present, append when absent. -/
def dictInsert : LookupMap → LKey → Str → LookupMap
  | [], k, v => [(k, v)]
  | p :: ps, k, v => if p.1 = k then (k, v) :: ps else p :: dictInsert ps k v

/-- Phase one of calculate_accuracy for one candidate row: store the value
    under the exact triple and under the subcat-agnostic pair; plain
    assignment, so a later row overwrites an earlier binding. -/
def vlmInsertRow (m : LookupMap) (r : Row) : LookupMap :=
  dictInsert
    (dictInsert m (LKey.triple (normCell r.cat) (normCell r.subcat) (normCell r.key))
      (normCell r.val))
    (LKey.pair (normCell r.cat) (normCell r.key)) (normCell r.val)

/-- The candidate lookup built by phase one of calculate_accuracy. -/
def buildVlmLookup (rows : List Row) : LookupMap := rows.foldl vlmInsertRow []

/-- The ground-truth lookup built before calculate_accuracy is called:
    rows with empty or "nan" values are skipped, and for both key shapes
    only the first binding is kept. -/
def buildFnfLookup (rows : List Row) : LookupMap :=
  rows.foldl
    (fun m r =>
      let cat := normCell r.cat
      let sub := normCell r.subcat
      let key := normCell r.key
      let val := normCell r.val
      if val = [] ∨ val = chars "nan" then m
      else
        let m1 := if dictGet m (LKey.triple cat sub key) = none then
            dictInsert m (LKey.triple cat sub key) val else m
        if dictGet m1 (LKey.pair cat key) = none then
          dictInsert m1 (LKey.pair cat key) val else m1) []

/-- The relaxed search loops of calculate_accuracy: iterate the dictionary
    in insertion order; a marketing query scans 2-tuple keys with empty key
    and word-matching category, a product query scans 3-tuple keys with
    word-matching category, identical key, and fuzzy-compatible subcategory. -/
def relaxedLookup (m : LookupMap) (fcat fsubcat fkey : Str) : Str :=
  if fkey = [] then
    match m.find? (fun p =>
      match p.1 with
      | LKey.pair c k => (k == ([] : Str)) && word_level_match fcat c
      | LKey.triple _ _ _ => false) with
    | some p => p.2
    | none => []
  else
    match m.find? (fun p =>
      match p.1 with
      | LKey.triple c s k => word_level_match fcat c && (k == fkey) &&
          ((fsubcat == ([] : Str)) || (s == ([] : Str)) || fuzzy_match_subcat fsubcat s)
      | LKey.pair _ _ => false) with
    | some p => p.2
    | none => []

/-- Value lookup of calculate_accuracy for one ground-truth entry: first
    the exact triple (its stored value is returned even when the triple key
    is bound to an empty value); when the triple key is absent, the
    subcat-agnostic pair; and only when the result is still empty, the
    relaxed word-level search. -/
def lookupCandidateValue (m : LookupMap) (fcat fsubcat fkey : Str) : Str :=
  let v0 :=
    match dictGet m (LKey.triple fcat fsubcat fkey) with
    | some v => v
    | none => (dictGet m (LKey.pair fcat fkey)).getD []
  if v0 = [] then relaxedLookup m fcat fsubcat fkey else v0

/-- Value lookup in the precedence order the specification describes: the
    exact triple first, then the relaxed subcat word-match, and the
    subcat-agnostic pair only last.  Written from the spec's words for
    comparison with lookupCandidateValue, which follows the source. -/
def lookupValueSpecOrder (m : LookupMap) (fcat fsubcat fkey : Str) : Str :=
  match dictGet m (LKey.triple fcat fsubcat fkey) with
  | some v => v
  | none =>
    match m.find? (fun p =>
      match p.1 with
      | LKey.triple c s k => word_level_match fcat c && (k == fkey) && fuzzy_match_subcat fsubcat s
      | LKey.pair _ _ => false) with
    | some p => p.2
    | none => (dictGet m (LKey.pair fcat fkey)).getD []

/-- Dedup key of remove_duplicates: the normalized match triple. -/
def dedupKey (r : Row) : Str × Str × Str :=
  (normalize_text r.cat, normalize_text r.subcat, normalize_text r.key)

/-- Helper for remove_duplicates carrying the set of keys already seen. -/
def removeDupAux (seen : List (Str × Str × Str)) : List Row → List Row
  | [] => []
  | r :: rs =>
    if dedupKey r ∈ seen then removeDupAux seen rs
    else r :: removeDupAux (dedupKey r :: seen) rs

/-- Embedding of remove_duplicates from dashboard.py: keep the first row of
    every normalized (cat, subcat, key) combination. -/
def remove_duplicates (rows : List Row) : List Row := removeDupAux [] rows

/-- Duplicate every row in place, the transformation of the dedup
    idempotence property. -/
def doubleRows : List Row → List Row
  | [] => []
  | r :: rs => r :: r :: doubleRows rs

/-- Counters accumulated by the ground-truth loop of calculate_accuracy:
    marketing match and total, product match and total, subcat errors. -/
structure FnfCounts where
  mm : Nat
  mt : Nat
  pm : Nat
  pt : Nat
  se : Nat
deriving DecidableEq

/-- Value-match increment: one when the candidate value is present and
    word-level matches the ground truth value, zero otherwise. -/
def valueMatchInc (fval vval : Str) : Nat :=
  if vval ≠ [] ∧ word_level_match fval vval then 1 else 0

/-- Subcategory-error increment of calculate_accuracy: when all four guard
    fields are non-empty, the first candidate row whose category word-matches
    and whose key equals the ground-truth key is located; a non-empty,
    non-fuzzy-matching subcategory on that row counts one error. -/
def subcatErrorInc (vlm : List Row) (fcat fsubcat fkey vval : Str) : Nat :=
  if fcat ≠ [] ∧ fsubcat ≠ [] ∧ fkey ≠ [] ∧ vval ≠ [] then
    match vlm.find? (fun vr =>
        word_level_match fcat (normCell vr.cat) && (normCell vr.key == fkey)) with
    | some vr =>
      if normCell vr.subcat ≠ [] ∧ ¬ fuzzy_match_subcat (normCell vr.subcat) fsubcat = true
      then 1 else 0
    | none => 0
  else 0

/-- One step of the ground-truth loop of calculate_accuracy. -/
def stepFnf (vlm : List Row) (m : LookupMap) (c : FnfCounts) (r : Row) : FnfCounts :=
  let fcat := normCell r.cat
  let fsubcat := normCell r.subcat
  let fkey := normCell r.key
  let fval := normCell r.val
  let vval := lookupCandidateValue m fcat fsubcat fkey
  if fkey = [] then
    if fval ≠ [] then
      { c with mt := c.mt + 1, mm := c.mm + valueMatchInc fval vval }
    else c
  else
    if fval ≠ [] then
      { c with pt := c.pt + 1,
               se := c.se + subcatErrorInc vlm fcat fsubcat fkey vval,
               pm := c.pm + valueMatchInc fval vval }
    else c

/-- The counters after the whole ground-truth loop. -/
def fnfCountsOf (vlm fnf : List Row) : FnfCounts :=
  fnf.foldl (stepFnf vlm (buildVlmLookup vlm)) ⟨0, 0, 0, 0, 0⟩

/-- One step of the extra-item loop of calculate_accuracy: a candidate row
    with a value that the ground-truth lookup cannot account for counts as
    a marketing extra or a product extra. -/
def stepExtra (fl : LookupMap) (acc : Nat × Nat) (r : Row) : Nat × Nat :=
  let vcat := normCell r.cat
  let vsub := normCell r.subcat
  let vkey := normCell r.key
  let vval := normCell r.val
  if vval = [] then acc
  else if lookupCandidateValue fl vcat vsub vkey = [] then
    if vkey = [] then (acc.1 + 1, acc.2) else (acc.1, acc.2 + 1)
  else acc

/-- Marketing accuracy formula of calculate_accuracy. -/
def marketingAcc (c : FnfCounts) : ℚ :=
  if 0 < c.mt then (c.mm : ℚ) / (c.mt : ℚ) * 100 else 0

/-- Value accuracy formula of calculate_accuracy. -/
def valueAcc (c : FnfCounts) : ℚ :=
  if 0 < c.pt then (c.pm : ℚ) / (c.pt : ℚ) * 100 else 0

/-- Subcategory accuracy formula of calculate_accuracy. -/
def subcatAcc (c : FnfCounts) : ℚ :=
  if 0 < c.pt then ((c.pt : ℚ) - (c.se : ℚ)) / (c.pt : ℚ) * 100 else 0

/-- Product accuracy formula of calculate_accuracy: the weighted average of
    the value accuracy (0.6) and the subcategory accuracy (0.4). -/
def productAcc (c : FnfCounts) : ℚ :=
  if 0 < c.pt then valueAcc c * (6 / 10) + subcatAcc c * (4 / 10) else 0

/-- The record returned by calculate_accuracy; float accuracies are modelled
    as rationals. -/
structure AccuracyRecord where
  marketing_acc : ℚ
  marketing_match : Nat
  marketing_total : Nat
  marketing_extra : Nat
  product_acc : ℚ
  value_acc : ℚ
  subcat_acc : ℚ
  product_match : Nat
  product_total : Nat
  product_extra : Nat
  subcat_errors : Nat
  has_brand : Bool
  has_product_name : Bool
deriving DecidableEq

/-- Embedding of calculate_accuracy from dashboard.py, with the ground-truth
    lookup built from the same ground-truth table as at the call site. -/
def calculate_accuracy (vlm fnf : List Row) : AccuracyRecord :=
  let c := fnfCountsOf vlm fnf
  let fl := buildFnfLookup fnf
  let ex := vlm.foldl (stepExtra fl) (0, 0)
  { marketing_acc := marketingAcc c
    marketing_match := c.mm
    marketing_total := c.mt
    marketing_extra := ex.1
    product_acc := productAcc c
    value_acc := valueAcc c
    subcat_acc := subcatAcc c
    product_match := c.pm
    product_total := c.pt
    product_extra := ex.2
    subcat_errors := c.se
    has_brand := vlm.any (fun r =>
      (normCell r.key == chars "brand") && !(normCell r.val == ([] : Str)))
    has_product_name := vlm.any (fun r =>
      (normCell r.key == chars "product_name") && !(normCell r.val == ([] : Str))) }

/-- The dedup-then-reconcile pipeline applied to one candidate table. -/
def vlmPipeline (fnf vlm : List Row) : AccuracyRecord :=
  calculate_accuracy (remove_duplicates vlm) fnf

/-- Embedding of load_data from dashboard.py.  The Excel reads themselves
    are external I/O, so each loader is modelled by its outcome: the
    ground-truth and vendor loaders by an Except (their error-message form),
    the Gemini loader by an Option (its absence form).  The decision logic
    of load_data is translated unchanged: a ground-truth error returns an
    error, a missing Gemini result is replaced by an empty table, and a
    vendor error also returns an error. -/
def load_data (fnfResult : Except String (List Row)) (geminiResult : Option (List Row))
    (oddResult : Except String (List Row)) :
    Except String (List Row × List Row × List Row) :=
  match fnfResult with
  | Except.error e => Except.error ("fnf load failed: " ++ e)
  | Except.ok dfFnf =>
    let dfGemini := geminiResult.getD []
    match oddResult with
    | Except.error e => Except.error ("oddconcept load failed: " ++ e)
    | Except.ok dfOdd => Except.ok (dfFnf, dfGemini, dfOdd)

/-- Per-source average of per-image accuracy rates, as in main: the sum
    divided by the length, zero for an empty list. -/
def averageRate (rates : List ℚ) : ℚ :=
  if rates = [] then 0 else rates.sum / (rates.length : ℚ)

/-- Combined score of one source, as in main: the unweighted mean of the
    average marketing accuracy and the average product accuracy. -/
def combinedAverage (marketingRates productRates : List ℚ) : ℚ :=
  (averageRate marketingRates + averageRate productRates) / 2

/-- Value of the last candidate row carrying the given normalized
    (category, key) pair, the binding a Python dict overwrite leaves. -/
def lastPairVal (rows : List Row) (c k : Str) : Option Str :=
  rows.foldl (fun acc r =>
    if c = normCell r.cat ∧ k = normCell r.key then some (normCell r.val) else acc) none

lemma dictGet_dictInsert (m : LookupMap) (k : LKey) (v : Str) (k2 : LKey) :
    dictGet (dictInsert m k v) k2 = if k2 = k then some v else dictGet m k2 := by
  induction m with
  | nil =>
    by_cases h : k2 = k
    · subst h; simp [dictInsert, dictGet]
    · simp [dictInsert, dictGet, h, Ne.symm h]
  | cons p ps ih =>
    by_cases hp : p.1 = k
    · by_cases h : k2 = k
      · subst h; simp [dictInsert, dictGet, hp]
      · simp [dictInsert, dictGet, hp, h, Ne.symm h]
    · by_cases hq : p.1 = k2
      · have h : ¬ k2 = k := fun hh => hp (hq.trans hh)
        simp [dictInsert, dictGet, hp, hq, h]
      · simp [dictInsert, dictGet, hp, hq, ih]

lemma dictGet_vlmFold (rows : List Row) (m : LookupMap) (c k : Str) :
    dictGet (rows.foldl vlmInsertRow m) (LKey.pair c k) =
      rows.foldl (fun acc r =>
        if c = normCell r.cat ∧ k = normCell r.key then some (normCell r.val) else acc)
        (dictGet m (LKey.pair c k)) := by
  induction rows generalizing m with
  | nil => rfl
  | cons r rs ih =>
    simp only [List.foldl_cons]
    rw [ih]
    congr 1
    simp only [vlmInsertRow, dictGet_dictInsert, LKey.pair.injEq]
    split <;> simp_all

lemma removeDupAux_doubleRows (rows : List Row) (seen : List (Str × Str × Str)) :
    removeDupAux seen (doubleRows rows) = removeDupAux seen rows := by
  induction rows generalizing seen with
  | nil => rfl
  | cons r rs ih =>
    by_cases h : dedupKey r ∈ seen
    · simp [doubleRows, removeDupAux, h, ih]
    · simp [doubleRows, removeDupAux, h, ih]

lemma valueMatchInc_le_one (fval vval : Str) : valueMatchInc fval vval ≤ 1 := by
  unfold valueMatchInc
  split <;> omega

lemma subcatErrorInc_le_one (vlm : List Row) (a b c d : Str) :
    subcatErrorInc vlm a b c d ≤ 1 := by
  unfold subcatErrorInc
  repeat' split
  all_goals omega

lemma stepFnf_inv (vlm : List Row) (m : LookupMap) (c : FnfCounts) (r : Row)
    (h : c.mm ≤ c.mt ∧ c.pm ≤ c.pt ∧ c.se ≤ c.pt) :
    (stepFnf vlm m c r).mm ≤ (stepFnf vlm m c r).mt ∧
    (stepFnf vlm m c r).pm ≤ (stepFnf vlm m c r).pt ∧
    (stepFnf vlm m c r).se ≤ (stepFnf vlm m c r).pt := by
  have h1 := valueMatchInc_le_one (normCell r.val)
    (lookupCandidateValue m (normCell r.cat) (normCell r.subcat) (normCell r.key))
  have h2 := subcatErrorInc_le_one vlm (normCell r.cat) (normCell r.subcat) (normCell r.key)
    (lookupCandidateValue m (normCell r.cat) (normCell r.subcat) (normCell r.key))
  unfold stepFnf
  dsimp only
  split_ifs <;> simp_all <;> omega

lemma fnfCounts_inv (vlm fnf : List Row) :
    (fnfCountsOf vlm fnf).mm ≤ (fnfCountsOf vlm fnf).mt ∧
    (fnfCountsOf vlm fnf).pm ≤ (fnfCountsOf vlm fnf).pt ∧
    (fnfCountsOf vlm fnf).se ≤ (fnfCountsOf vlm fnf).pt := by
  unfold fnfCountsOf
  have hgen : ∀ (l : List Row) (c : FnfCounts), c.mm ≤ c.mt ∧ c.pm ≤ c.pt ∧ c.se ≤ c.pt →
      (l.foldl (stepFnf vlm (buildVlmLookup vlm)) c).mm ≤
        (l.foldl (stepFnf vlm (buildVlmLookup vlm)) c).mt ∧
      (l.foldl (stepFnf vlm (buildVlmLookup vlm)) c).pm ≤
        (l.foldl (stepFnf vlm (buildVlmLookup vlm)) c).pt ∧
      (l.foldl (stepFnf vlm (buildVlmLookup vlm)) c).se ≤
        (l.foldl (stepFnf vlm (buildVlmLookup vlm)) c).pt := by
    intro l
    induction l with
    | nil => intro c hc; simpa using hc
    | cons r rs ih =>
      intro c hc
      simpa [List.foldl_cons] using ih _ (stepFnf_inv vlm (buildVlmLookup vlm) c r hc)
  exact hgen fnf ⟨0, 0, 0, 0, 0⟩ (by simp)

lemma ratio_bounds (x b : ℚ) (hx0 : 0 ≤ x) (hxb : x ≤ b) (hb : 0 < b) :
    0 ≤ x / b * 100 ∧ x / b * 100 ≤ 100 := by
  constructor
  · positivity
  · have h1 : x / b ≤ 1 := (div_le_one hb).mpr hxb
    linarith

lemma marketingAcc_bounds (c : FnfCounts) (h : c.mm ≤ c.mt) :
    0 ≤ marketingAcc c ∧ marketingAcc c ≤ 100 := by
  unfold marketingAcc
  split
  · next hmt =>
    exact ratio_bounds _ _ (by positivity) (by exact_mod_cast h) (by exact_mod_cast hmt)
  · norm_num

lemma valueAcc_bounds (c : FnfCounts) (h : c.pm ≤ c.pt) :
    0 ≤ valueAcc c ∧ valueAcc c ≤ 100 := by
  unfold valueAcc
  split
  · next hpt =>
    exact ratio_bounds _ _ (by positivity) (by exact_mod_cast h) (by exact_mod_cast hpt)
  · norm_num

lemma subcatAcc_bounds (c : FnfCounts) (h : c.se ≤ c.pt) :
    0 ≤ subcatAcc c ∧ subcatAcc c ≤ 100 := by
  unfold subcatAcc
  split
  · next hpt =>
    have hse : (c.se : ℚ) ≤ (c.pt : ℚ) := by exact_mod_cast h
    have hse0 : (0 : ℚ) ≤ (c.se : ℚ) := by positivity
    exact ratio_bounds _ _ (by linarith) (by linarith) (by exact_mod_cast hpt)
  · norm_num

lemma productAcc_bounds (c : FnfCounts) (hv : c.pm ≤ c.pt) (hs : c.se ≤ c.pt) :
    0 ≤ productAcc c ∧ productAcc c ≤ 100 := by
  obtain ⟨v0, v1⟩ := valueAcc_bounds c hv
  obtain ⟨s0, s1⟩ := subcatAcc_bounds c hs
  unfold productAcc
  split
  · constructor <;> nlinarith
  · norm_num

/-- Ground-truth row of Scenario A: category outer, subcategory jacket,
    key color, value black. -/
def exOuterJacket : Row := ⟨chars "outer", chars "jacket", chars "color", chars "black"⟩

/-- Candidate row whose subcategory fuzzy-matches jacket. -/
def exJackets : Row := ⟨chars "outer", chars "jackets", chars "color", chars "black"⟩

/-- Candidate row with the same category and key but an unrelated
    subcategory and a different value. -/
def exPants : Row := ⟨chars "outer", chars "pants", chars "color", chars "red"⟩

/-- Candidate lookup built from the two conflicting rows above. -/
def exMapTwo : LookupMap := buildVlmLookup [exJackets, exPants]

/-- Second candidate row for the ambiguity scenario: same category and key
    as exOuterJacket, different subcategory, different value. -/
def exVest : Row := ⟨chars "outer", chars "vest", chars "color", chars "red"⟩

/-- Ground-truth row for the load-orchestration scenario. -/
def exBlue : Row := ⟨chars "outer", chars "jacket", chars "color", chars "blue"⟩

lemma scenarioA_counts : fnfCountsOf [] [exOuterJacket] = ⟨0, 0, 0, 1, 0⟩ := by decide

/-- C1 counterexample: on Scenario A (one ground-truth product entry, empty
    candidate row-set) calculate_accuracy does NOT return product_accuracy
    zero: the value accuracy is 0 but the subcategory accuracy defaults to
    100 because no candidate value exists to trigger the subcategory check,
    so the weighted product accuracy is 0.6 * 0 + 0.4 * 100 = 40. -/
theorem C1_counterexample : (calculate_accuracy [] [exOuterJacket]).product_acc ≠ 0 := by
  show productAcc (fnfCountsOf [] [exOuterJacket]) ≠ 0
  rw [scenarioA_counts]
  norm_num [productAcc, valueAcc, subcatAcc]

/-- C1 amended: for the ground-truth row-set with exactly the product entry
    (outer, jacket, color, black) and an empty candidate row-set,
    calculate_accuracy returns product_total 1, product_match 0 and
    product_accuracy 40 (value accuracy 0 weighted 0.6 plus defaulted
    subcategory accuracy 100 weighted 0.4), and no exception is possible
    since the embedding is a total function. -/
theorem C1_scenarioA :
    (calculate_accuracy [] [exOuterJacket]).product_total = 1 ∧
    (calculate_accuracy [] [exOuterJacket]).product_match = 0 ∧
    (calculate_accuracy [] [exOuterJacket]).product_acc = 40 := by
  refine ⟨?_, ?_, ?_⟩
  · show (fnfCountsOf [] [exOuterJacket]).pt = 1
    rw [scenarioA_counts]
  · show (fnfCountsOf [] [exOuterJacket]).pm = 0
    rw [scenarioA_counts]
  · show productAcc (fnfCountsOf [] [exOuterJacket]) = 40
    rw [scenarioA_counts]
    norm_num [productAcc, valueAcc, subcatAcc]

/-- C2 counterexample: for a candidate map where the exact triple is absent
    while a relaxed subcat word-match (exJackets, value black) exists and
    the subcat-agnostic pair binding holds red (the later row), the source
    lookup returns red: the pair fallback is consulted BEFORE the relaxed
    subcat match, contradicting the claimed precedence order, under which
    the result would be black. -/
theorem C2_counterexample :
    lookupCandidateValue exMapTwo (chars "outer") (chars "jacket") (chars "color") = chars "red" ∧
    lookupValueSpecOrder exMapTwo (chars "outer") (chars "jacket") (chars "color") = chars "black" ∧
    chars "red" ≠ chars "black" := by
  decide

/-- C2 amended: the lookup precedence is exact (cat, subcat, key) triple
    first, then the (cat, key) pair ignoring subcategory, and the relaxed
    word-and-fuzzy match only last: whenever the triple key is absent and
    the pair is bound to a non-empty value, that pair value is returned and
    the relaxed search is never reached. -/
theorem C2_lookup_precedence (m : LookupMap) (c s k v : Str)
    (h1 : dictGet m (LKey.triple c s k) = none)
    (h2 : dictGet m (LKey.pair c k) = some v) (h3 : v ≠ []) :
    lookupCandidateValue m c s k = v := by
  simp [lookupCandidateValue, h1, h2, h3]

/-- Witness for C2_lookup_precedence at the concrete two-row candidate map. -/
theorem C2_witness :
    lookupCandidateValue exMapTwo (chars "outer") (chars "jacket") (chars "color") = chars "red" :=
  C2_lookup_precedence exMapTwo (chars "outer") (chars "jacket") (chars "color") (chars "red")
    (by decide) (by decide) (by decide)

/-- C3 counterexample: with the ground truth loading successfully and the
    Gemini candidate available, a vendor (oddconcept) load error makes
    load_data return an error for the whole comparison instead of degrading
    to a report without that source. -/
theorem C3_counterexample :
    load_data (Except.ok [exBlue]) (some [exBlue]) (Except.error "vendor file not found") =
      Except.error "oddconcept load failed: vendor file not found" := rfl

/-- C3 amended: load error handling is asymmetric between the two candidate
    sources.  A missing Gemini result degrades gracefully to an empty
    candidate table with both other sources intact; a vendor (oddconcept)
    load error blocks the entire comparison exactly as a ground-truth load
    error does. -/
theorem C3_load_error_handling :
    (∀ gt odd : List Row,
      load_data (Except.ok gt) none (Except.ok odd) = Except.ok (gt, [], odd)) ∧
    (∀ (gt : List Row) (g : Option (List Row)) (e : String),
      load_data (Except.ok gt) g (Except.error e) =
        Except.error ("oddconcept load failed: " ++ e)) ∧
    (∀ (e : String) (g : Option (List Row)) (o : Except String (List Row)),
      load_data (Except.error e) g o = Except.error ("fnf load failed: " ++ e)) :=
  ⟨fun _ _ => rfl, fun _ _ _ => rfl, fun _ _ _ => rfl⟩

/-- C4 counterexample: after deduplication the candidate row-set still
    holds both rows (outer, jacket, color, black) and (outer, vest, color,
    red), since their dedup triples differ; the subcat-agnostic
    (outer, color) entry of the candidate lookup then holds red, the LAST
    such row's value, not black, the first row's value as claimed. -/
theorem C4_counterexample :
    dictGet (buildVlmLookup (remove_duplicates [exOuterJacket, exVest]))
        (LKey.pair (chars "outer") (chars "color")) = some (chars "red") ∧
    dictGet (buildVlmLookup (remove_duplicates [exOuterJacket, exVest]))
        (LKey.pair (chars "outer") (chars "color")) ≠ some (chars "black") := by
  decide

/-- C4 amended: the ambiguity of one key under two different subcategories
    is resolved deterministically by LAST-match-wins: for every deduplicated
    candidate row-set, the subcat-agnostic (cat, key) entry of the lookup
    holds the value of the last row with that normalized category and key
    (a Python dict assignment overwrites), and the embedding is a total
    function, so a verdict is always produced without an exception. -/
theorem C4_last_match_wins (rows : List Row) (c k : Str) :
    dictGet (buildVlmLookup (remove_duplicates rows)) (LKey.pair c k) =
      lastPairVal (remove_duplicates rows) c k := by
  have h := dictGet_vlmFold (remove_duplicates rows) [] c k
  simpa [buildVlmLookup, lastPairVal, dictGet] using h

lemma valueTokens_nil : valueTokens [] = [] := by decide

/-- C5 counterexample: word_level_match, the value-comparison overlap
    predicate, does not singularize its tokens, so the claimed instance
    fails: word_level_match of shoes and shoe is false. -/
theorem C5_counterexample : word_level_match (chars "shoes") (chars "shoe") = false := by
  decide

/-- C5 amended: word_level_match is true exactly when the two token sets
    intersect, but its tokenization inserts the normalized whole phrase and
    the normalized words WITHOUT stripping a trailing s; consequently
    shoes versus shoe does not value-match, while the subcategory matcher
    fuzzy_match_subcat, which does singularize, accepts that pair. -/
theorem C5_word_overlap_tokens :
    (∀ a b : Str, word_level_match a b = true ↔
      ∃ t, t ∈ valueTokens a ∧ t ∈ valueTokens b) ∧
    word_level_match (chars "shoes") (chars "shoe") = false ∧
    fuzzy_match_subcat (chars "shoes") (chars "shoe") = true := by
  refine ⟨?_, by decide, by decide⟩
  intro a b
  by_cases ha : a = []
  · subst ha
    simp [word_level_match, valueTokens_nil]
  · by_cases hb : b = []
    · subst hb
      simp [word_level_match, valueTokens_nil]
    · simp [word_level_match, ha, hb]

/-- C6: zero-denominator safety of the scoring step.  When the marketing
    total is zero the marketing accuracy is zero (not 100 and no division),
    and when the product total is zero the value, subcategory and product
    accuracies are all zero; the guarded formulas never divide by zero. -/
theorem C6_zero_denominator (vlm fnf : List Row) :
    ((calculate_accuracy vlm fnf).marketing_total = 0 →
      (calculate_accuracy vlm fnf).marketing_acc = 0) ∧
    ((calculate_accuracy vlm fnf).product_total = 0 →
      (calculate_accuracy vlm fnf).value_acc = 0 ∧
      (calculate_accuracy vlm fnf).subcat_acc = 0 ∧
      (calculate_accuracy vlm fnf).product_acc = 0) := by
  constructor
  · intro h
    have h0 : (fnfCountsOf vlm fnf).mt = 0 := h
    show marketingAcc (fnfCountsOf vlm fnf) = 0
    simp [marketingAcc, h0]
  · intro h
    have h0 : (fnfCountsOf vlm fnf).pt = 0 := h
    refine ⟨?_, ?_, ?_⟩
    · show valueAcc (fnfCountsOf vlm fnf) = 0
      simp [valueAcc, h0]
    · show subcatAcc (fnfCountsOf vlm fnf) = 0
      simp [subcatAcc, h0]
    · show productAcc (fnfCountsOf vlm fnf) = 0
      simp [productAcc, h0]

/-- Witness for C6_zero_denominator at the empty input pair, whose totals
    are both zero. -/
theorem C6_witness :
    (calculate_accuracy [] []).marketing_acc = 0 ∧
    (calculate_accuracy [] []).value_acc = 0 ∧
    (calculate_accuracy [] []).subcat_acc = 0 ∧
    (calculate_accuracy [] []).product_acc = 0 := by
  have h := C6_zero_denominator [] []
  have h1 := h.1 (by decide)
  have h2 := h.2 (by decide)
  exact ⟨h1, h2.1, h2.2.1, h2.2.2⟩

/-- C7: dedup idempotence of the dedup-then-reconcile pipeline.  Running
    the pipeline on a candidate table and on the same table with every row
    duplicated yields identical AccuracyRecords, every count included. -/
theorem C7_dedup_idempotence (fnf vlm : List Row) :
    vlmPipeline fnf (doubleRows vlm) = vlmPipeline fnf vlm := by
  unfold vlmPipeline remove_duplicates
  rw [removeDupAux_doubleRows]

/-- C8: the corpus summary is the unweighted arithmetic mean.  Averaging
    per-image product accuracies 100, 0 and 50 yields exactly 50, and each
    source's combined score is the unweighted mean of its average marketing
    accuracy and its average product accuracy. -/
theorem C8_aggregator_mean :
    averageRate [100, 0, 50] = 50 ∧
    (∀ marketingRates productRates : List ℚ,
      combinedAverage marketingRates productRates =
        (averageRate marketingRates + averageRate productRates) / 2) := by
  constructor
  · have hne : ([100, 0, 50] : List ℚ) ≠ [] := by simp
    norm_num [averageRate, hne]
  · intro m p
    rfl

/-- C9: determinism of the Reconciler.  The embedding of calculate_accuracy
    is a pure function of the candidate and ground-truth row-sets, so two
    calls on the same inputs return identical AccuracyRecords in every
    count, accuracy value and bonus flag. -/
theorem C9_determinism (vlm fnf : List Row) :
    calculate_accuracy vlm fnf = calculate_accuracy vlm fnf := rfl

/-- C10: bounds invariants of the AccuracyRecord.  Marketing matches never
    exceed the marketing total, product matches and subcategory errors
    never exceed the product total, and all four accuracies lie in the
    closed interval from 0 to 100. -/
theorem C10_bounds_invariants (vlm fnf : List Row) :
    (calculate_accuracy vlm fnf).marketing_match ≤ (calculate_accuracy vlm fnf).marketing_total ∧
    (calculate_accuracy vlm fnf).product_match ≤ (calculate_accuracy vlm fnf).product_total ∧
    (calculate_accuracy vlm fnf).subcat_errors ≤ (calculate_accuracy vlm fnf).product_total ∧
    (0 ≤ (calculate_accuracy vlm fnf).marketing_acc ∧
      (calculate_accuracy vlm fnf).marketing_acc ≤ 100) ∧
    (0 ≤ (calculate_accuracy vlm fnf).value_acc ∧
      (calculate_accuracy vlm fnf).value_acc ≤ 100) ∧
    (0 ≤ (calculate_accuracy vlm fnf).subcat_acc ∧
      (calculate_accuracy vlm fnf).subcat_acc ≤ 100) ∧
    (0 ≤ (calculate_accuracy vlm fnf).product_acc ∧
      (calculate_accuracy vlm fnf).product_acc ≤ 100) := by
  have hinv := fnfCounts_inv vlm fnf
  exact ⟨hinv.1, hinv.2.1, hinv.2.2,
    marketingAcc_bounds (fnfCountsOf vlm fnf) hinv.1,
    valueAcc_bounds (fnfCountsOf vlm fnf) hinv.2.1,
    subcatAcc_bounds (fnfCountsOf vlm fnf) hinv.2.2,
    productAcc_bounds (fnfCountsOf vlm fnf) hinv.2.1 hinv.2.2⟩
